import Mathlib

/-!
Verification of the byte-cursor lexer in `src/rust/src/lexer/lexer.rs`.

Bytes are modelled as `Nat` (the source works on `u8` values; no byte
arithmetic occurs, only comparisons, so no wraparound modelling is needed)
and the input buffer `Vec<u8>` as `List Nat`.  `String` results of the
`read_*` helpers are modelled as the byte slices they are built from: at
every call site the slice consists of ASCII bytes, on which
`String::from_utf8_lossy` is the identity.  The `todo!` macro aborts the
process, so `next_token`, which can reach two `todo!` sites, returns
`Option`: `none` models the panic.
-/

/-- The token taxonomy from the source (`enum Token`).  The Rust variant
`Type` is spelled `Type'` because `Type` is a Lean keyword. -/
inductive Token where
  | Ident (s : List Nat)
  | Int (s : List Nat)
  | Illegal
  | Eof
  | Equal
  | Plus
  | Comma
  | Semicolon
  | Lparen
  | Rparen
  | LSquirly
  | RSquirly
  | Function
  | Let
  | Const
  | Static
  | Period
  | DQuote
  | SQuote
  | Colon
  | DoubleColon
  | Mod
  | Pub
  | Crate
  | Use
  | As
  | Extern
  | SelfType
  | Self_
  | Range
  | RangeInclusive
  | DefaultFields
  | For
  | In
  | If
  | Else
  | Match
  | While
  | Loop
  | Continue
  | Break
  | Return
  | PlusEqual
  | MinusEqual
  | Mut
  | Ampersand
  | AmpersandAmpersand
  | Pipe
  | PipePipe
  | Bang
  | BangEqual
  | EqualEqual
  | I8
  | U8
  | I16
  | U16
  | I32
  | U32
  | I64
  | U64
  | I128
  | U128
  | Isize
  | Usize
  | F32
  | F64
  | Bool
  | Char
  | Str
  | True
  | False
  | Default
  | Type'
  | Struct
  | Enum
  | Trait
  | Impl
  | Arrow
  | Minus
  deriving Repr

/-- Constructor tag, used only to build a decidable equality linear in the
number of constructors (the derived instance is quadratic and too large). -/
def Token.tag : Token → Nat
  | .Ident _ => 0
  | .Int _ => 1
  | .Illegal => 2
  | .Eof => 3
  | .Equal => 4
  | .Plus => 5
  | .Comma => 6
  | .Semicolon => 7
  | .Lparen => 8
  | .Rparen => 9
  | .LSquirly => 10
  | .RSquirly => 11
  | .Function => 12
  | .Let => 13
  | .Const => 14
  | .Static => 15
  | .Period => 16
  | .DQuote => 17
  | .SQuote => 18
  | .Colon => 19
  | .DoubleColon => 20
  | .Mod => 21
  | .Pub => 22
  | .Crate => 23
  | .Use => 24
  | .As => 25
  | .Extern => 26
  | .SelfType => 27
  | .Self_ => 28
  | .Range => 29
  | .RangeInclusive => 30
  | .DefaultFields => 31
  | .For => 32
  | .In => 33
  | .If => 34
  | .Else => 35
  | .Match => 36
  | .While => 37
  | .Loop => 38
  | .Continue => 39
  | .Break => 40
  | .Return => 41
  | .PlusEqual => 42
  | .MinusEqual => 43
  | .Mut => 44
  | .Ampersand => 45
  | .AmpersandAmpersand => 46
  | .Pipe => 47
  | .PipePipe => 48
  | .Bang => 49
  | .BangEqual => 50
  | .EqualEqual => 51
  | .I8 => 52
  | .U8 => 53
  | .I16 => 54
  | .U16 => 55
  | .I32 => 56
  | .U32 => 57
  | .I64 => 58
  | .U64 => 59
  | .I128 => 60
  | .U128 => 61
  | .Isize => 62
  | .Usize => 63
  | .F32 => 64
  | .F64 => 65
  | .Bool => 66
  | .Char => 67
  | .Str => 68
  | .True => 69
  | .False => 70
  | .Default => 71
  | .Type' => 72
  | .Struct => 73
  | .Enum => 74
  | .Trait => 75
  | .Impl => 76
  | .Arrow => 77
  | .Minus => 78

/-- The data carried by a token (empty for the bare markers). -/
def Token.payload : Token → List Nat
  | .Ident s => s
  | .Int s => s
  | _ => []

/-- Rebuild a token from its tag and payload. -/
def Token.ofTag : Nat → List Nat → Token
  | 0, s => .Ident s
  | 1, s => .Int s
  | 2, _ => .Illegal
  | 3, _ => .Eof
  | 4, _ => .Equal
  | 5, _ => .Plus
  | 6, _ => .Comma
  | 7, _ => .Semicolon
  | 8, _ => .Lparen
  | 9, _ => .Rparen
  | 10, _ => .LSquirly
  | 11, _ => .RSquirly
  | 12, _ => .Function
  | 13, _ => .Let
  | 14, _ => .Const
  | 15, _ => .Static
  | 16, _ => .Period
  | 17, _ => .DQuote
  | 18, _ => .SQuote
  | 19, _ => .Colon
  | 20, _ => .DoubleColon
  | 21, _ => .Mod
  | 22, _ => .Pub
  | 23, _ => .Crate
  | 24, _ => .Use
  | 25, _ => .As
  | 26, _ => .Extern
  | 27, _ => .SelfType
  | 28, _ => .Self_
  | 29, _ => .Range
  | 30, _ => .RangeInclusive
  | 31, _ => .DefaultFields
  | 32, _ => .For
  | 33, _ => .In
  | 34, _ => .If
  | 35, _ => .Else
  | 36, _ => .Match
  | 37, _ => .While
  | 38, _ => .Loop
  | 39, _ => .Continue
  | 40, _ => .Break
  | 41, _ => .Return
  | 42, _ => .PlusEqual
  | 43, _ => .MinusEqual
  | 44, _ => .Mut
  | 45, _ => .Ampersand
  | 46, _ => .AmpersandAmpersand
  | 47, _ => .Pipe
  | 48, _ => .PipePipe
  | 49, _ => .Bang
  | 50, _ => .BangEqual
  | 51, _ => .EqualEqual
  | 52, _ => .I8
  | 53, _ => .U8
  | 54, _ => .I16
  | 55, _ => .U16
  | 56, _ => .I32
  | 57, _ => .U32
  | 58, _ => .I64
  | 59, _ => .U64
  | 60, _ => .I128
  | 61, _ => .U128
  | 62, _ => .Isize
  | 63, _ => .Usize
  | 64, _ => .F32
  | 65, _ => .F64
  | 66, _ => .Bool
  | 67, _ => .Char
  | 68, _ => .Str
  | 69, _ => .True
  | 70, _ => .False
  | 71, _ => .Default
  | 72, _ => .Type'
  | 73, _ => .Struct
  | 74, _ => .Enum
  | 75, _ => .Trait
  | 76, _ => .Impl
  | 77, _ => .Arrow
  | _, _ => .Minus

theorem Token.ofTag_tag : ∀ t : Token, Token.ofTag t.tag t.payload = t := by
  intro t
  cases t <;> rfl

instance : DecidableEq Token := fun a b =>
  if h : a.tag = b.tag ∧ a.payload = b.payload then
    .isTrue (by rw [← Token.ofTag_tag a, ← Token.ofTag_tag b, h.1, h.2])
  else
    .isFalse (fun e => h (by rw [e]; exact ⟨rfl, rfl⟩))

/-- The scanner state (`struct Lexer`). -/
structure Lexer where
  position : Nat
  read_position : Nat
  ch : Nat
  input : List Nat
  deriving DecidableEq, Repr

/-- `u8::is_ascii_whitespace`: space, horizontal tab, line feed, form feed,
carriage return. -/
def is_ascii_whitespace (c : Nat) : Bool :=
  c = 32 || c = 9 || c = 10 || c = 12 || c = 13

/-- `u8::is_ascii_alphabetic`. -/
def is_ascii_alphabetic (c : Nat) : Bool :=
  (65 ≤ c && c ≤ 90) || (97 ≤ c && c ≤ 122)

/-- `u8::is_ascii_digit`. -/
def is_ascii_digit (c : Nat) : Bool :=
  48 ≤ c && c ≤ 57

/-- `u8::is_ascii_alphanumeric`. -/
def is_ascii_alphanumeric (c : Nat) : Bool :=
  is_ascii_alphabetic c || is_ascii_digit c

/-- The loop condition of `read_ident`: `self.ch.is_ascii_alphanumeric() ||
self.ch == b'_'`. -/
def ident_cont (c : Nat) : Bool := is_ascii_alphanumeric c || c = 95

/-- `Lexer::read_char`. -/
def read_char (s : Lexer) : Lexer :=
  let c := if s.input.length ≤ s.read_position then 0 else s.input.getD s.read_position 0
  { s with ch := c, position := s.read_position, read_position := s.read_position + 1 }

/-- The `while`-loop skeleton shared by `skip_whitespace`, `read_ident`,
`read_match`, `read_match_any` and `read_int`: advance while the predicate
holds of the current byte.  The Rust loops carry no fuel; each wrapper below
passes `input.length + 2`, which is enough for any loop whose predicate
rejects the byte `0`, so the wrappers agree with the (terminating) source
loops everywhere the source terminates. -/
def scanWhile (p : Nat → Bool) : Nat → Lexer → Lexer
  | 0, s => s
  | fuel + 1, s => if p s.ch then scanWhile p fuel (read_char s) else s

/-- `Lexer::new` (constructs the state, then calls `read_char` once). -/
def Lexer.new (input : List Nat) : Lexer :=
  read_char { position := 0, read_position := 0, ch := 0, input := input }

/-- `Lexer::skip_whitespace`. -/
def skip_whitespace (s : Lexer) : Lexer :=
  scanWhile is_ascii_whitespace (s.input.length + 2) s

/-- The slice `&self.input[pos..self.position]` taken at the end of each
`read_*` helper (`from_utf8_lossy` is the identity on the ASCII bytes these
slices hold). -/
def slice_from (s : Lexer) (pos : Nat) : List Nat :=
  (s.input.drop pos).take (s.position - pos)

/-- `Lexer::read_ident`: first byte must be a letter or underscore, the rest
alphanumeric or underscore. -/
def read_ident (s : Lexer) : List Nat × Lexer :=
  let pos := s.position
  let s' := if is_ascii_alphabetic s.ch || s.ch = 95 then
      scanWhile ident_cont (s.input.length + 2) (read_char s)
    else s
  (slice_from s' pos, s')

/-- `Lexer::read_match`. -/
def read_match (match_byte : Nat) (s : Lexer) : List Nat × Lexer :=
  let pos := s.position
  let s' := scanWhile (fun c => c = match_byte) (s.input.length + 2) s
  (slice_from s' pos, s')

/-- `Lexer::read_match_any`. -/
def read_match_any (match_bytes : List Nat) (s : Lexer) : List Nat × Lexer :=
  let pos := s.position
  let s' := scanWhile (fun c => match_bytes.contains c) (s.input.length + 2) s
  (slice_from s' pos, s')

/-- `Lexer::read_int`. -/
def read_int (s : Lexer) : List Nat × Lexer :=
  let pos := s.position
  let s' := scanWhile is_ascii_digit (s.input.length + 2) s
  (slice_from s' pos, s')

/-- ASCII string literal as a byte list, for readable statements. -/
def str (s : String) : List Nat := s.toList.map Char.toNat

/-- The keyword table: the `match ident.as_str()` in the letter branch of
`next_token`, including its (dead) `"=>"` arm. -/
def keyword_lookup (ident : List Nat) : Token :=
  if ident = str "fn" then Token.Function
  else if ident = str "let" then Token.Let
  else if ident = str "const" then Token.Const
  else if ident = str "static" then Token.Static
  else if ident = str "mod" then Token.Mod
  else if ident = str "pub" then Token.Pub
  else if ident = str "crate" then Token.Crate
  else if ident = str "use" then Token.Use
  else if ident = str "as" then Token.As
  else if ident = str "extern" then Token.Extern
  else if ident = str "Self" then Token.SelfType
  else if ident = str "self" then Token.Self_
  else if ident = str "for" then Token.For
  else if ident = str "in" then Token.In
  else if ident = str "if" then Token.If
  else if ident = str "else" then Token.Else
  else if ident = str "match" then Token.Match
  else if ident = str "while" then Token.While
  else if ident = str "loop" then Token.Loop
  else if ident = str "continue" then Token.Continue
  else if ident = str "break" then Token.Break
  else if ident = str "return" then Token.Return
  else if ident = str "mut" then Token.Mut
  else if ident = str "i8" then Token.I8
  else if ident = str "u8" then Token.U8
  else if ident = str "i16" then Token.I16
  else if ident = str "u16" then Token.U16
  else if ident = str "i32" then Token.I32
  else if ident = str "u32" then Token.U32
  else if ident = str "i64" then Token.I64
  else if ident = str "u64" then Token.U64
  else if ident = str "i128" then Token.I128
  else if ident = str "u128" then Token.U128
  else if ident = str "isize" then Token.Isize
  else if ident = str "usize" then Token.Usize
  else if ident = str "f32" then Token.F32
  else if ident = str "f64" then Token.F64
  else if ident = str "bool" then Token.Bool
  else if ident = str "char" then Token.Char
  else if ident = str "str" then Token.Str
  else if ident = str "true" then Token.True
  else if ident = str "false" then Token.False
  else if ident = str "default" then Token.Default
  else if ident = str "type" then Token.Type'
  else if ident = str "struct" then Token.Struct
  else if ident = str "enum" then Token.Enum
  else if ident = str "trait" then Token.Trait
  else if ident = str "impl" then Token.Impl
  else if ident = str "=>" then Token.Arrow
  else Token.Ident ident

/-- `Lexer::next_token`.  The match arms of the source are disjoint byte
classes, rendered as an `if` chain in source order.  Arms that `return`
early in the source keep the state produced by their `read_*` helper; the
remaining arms (single-byte punctuation, `=`, and the sentinel-`0` arm)
fall through to the trailing `self.read_char()`.  The two `todo!` sites
(the unmatched `.`-run and the catch-all byte class) become `none`. -/
def next_token (s : Lexer) : Option (Token × Lexer) :=
  let s0 := skip_whitespace s
  if s0.ch = 123 then some (Token.LSquirly, read_char s0)
  else if s0.ch = 125 then some (Token.RSquirly, read_char s0)
  else if s0.ch = 40 then some (Token.Lparen, read_char s0)
  else if s0.ch = 41 then some (Token.Rparen, read_char s0)
  else if s0.ch = 44 then some (Token.Comma, read_char s0)
  else if s0.ch = 59 then some (Token.Semicolon, read_char s0)
  else if s0.ch = 43 then
    let r := read_match_any [43, 61] s0
    some (if r.1 = [43, 61] then Token.PlusEqual else Token.Plus, r.2)
  else if s0.ch = 61 then some (Token.Equal, read_char s0)
  else if is_ascii_alphabetic s0.ch || s0.ch = 95 then
    let r := read_ident s0
    some (keyword_lookup r.1, r.2)
  else if is_ascii_digit s0.ch then
    let r := read_int s0
    some (Token.Int r.1, r.2)
  else if s0.ch = 0 then some (Token.Eof, read_char s0)
  else if s0.ch = 46 then
    let r := read_match_any [46, 61] s0
    if r.1 = [46] then some (Token.Period, r.2)
    else if r.1 = [46, 46] then some (Token.Range, r.2)
    else if r.1 = [46, 46, 61] then some (Token.RangeInclusive, r.2)
    else if r.1 = [46, 46, 46] then some (Token.DefaultFields, r.2)
    else none
  else if s0.ch = 58 then
    let r := read_match 58 s0
    some (if r.1 = [58, 58] then Token.DoubleColon else Token.Colon, r.2)
  else if s0.ch = 45 then
    let r := read_match_any [45, 61, 62] s0
    some (if r.1 = [45, 61] then Token.MinusEqual
      else if r.1 = [45, 62] then Token.Arrow
      else Token.Minus, r.2)
  else none

/-- Repeatedly call `next_token` until `Eof` (how the callers drive the
scanner), collecting the tokens.  `none`: a call panicked, or the fuel ran
out before `Eof`. -/
def lexAll : Nat → Lexer → Option (List Token)
  | 0, _ => none
  | fuel + 1, s =>
    match next_token s with
    | none => none
    | some (t, s') =>
      if t = Token.Eof then some [t] else (lexAll fuel s').map (fun ts => t :: ts)

/-- The token sequence of a whole input buffer.  `input.length + 1` calls
always suffice (each non-`Eof` call strictly advances `position`, which
stays at most `input.length` until `Eof`). -/
def tokensOfString (input : List Nat) : Option (List Token) :=
  lexAll (input.length + 1) (Lexer.new input)

/-! ## Abstraction layer

A reachable scanner state is determined by its input and its `position`:
`read_position` is always `position + 1` and `ch` is always the byte under
the cursor (with `0` past the end).  `stateAt` builds that canonical state
and `Wf` says a state has this shape. -/

/-- The canonical state of the scanner over `input` with the cursor at `p`. -/
def stateAt (input : List Nat) (p : Nat) : Lexer :=
  { position := p, read_position := p + 1, ch := input.getD p 0, input := input }

/-- Cursor well-formedness: `read_position` is one past `position` and `ch`
caches the byte under the cursor (`0` past the end of input). -/
def Wf (s : Lexer) : Prop :=
  s.read_position = s.position + 1 ∧ s.ch = s.input.getD s.position 0

instance (s : Lexer) : Decidable (Wf s) := by
  unfold Wf
  infer_instance

theorem Wf_stateAt (input : List Nat) (p : Nat) : Wf (stateAt input p) :=
  ⟨rfl, rfl⟩

theorem Wf.eq_stateAt {s : Lexer} (h : Wf s) : s = stateAt s.input s.position := by
  obtain ⟨h1, h2⟩ := h
  cases s with
  | mk p rp c inp =>
    simp only at h1 h2
    subst h1
    subst h2
    rfl

theorem read_char_eq (s : Lexer) : read_char s = stateAt s.input s.read_position := by
  unfold read_char stateAt
  by_cases h : s.input.length ≤ s.read_position
  · simp [h]
    rw [List.getElem?_eq_none h]
    rfl
  · simp [h]

theorem headD_drop (l : List Nat) (q : Nat) : (l.drop q).headD 0 = l.getD q 0 := by
  induction l generalizing q with
  | nil => simp [List.getD]
  | cons a t ih =>
    cases q with
    | zero => rfl
    | succ q => simpa using ih q

theorem take_takeWhile (p : Nat → Bool) (l : List Nat) :
    l.take (l.takeWhile p).length = l.takeWhile p := by
  induction l with
  | nil => rfl
  | cons a t ih =>
    by_cases h : p a
    · simp [List.takeWhile_cons, h, ih]
    · simp [List.takeWhile_cons, h]

theorem dropWhile_eq_drop_len (p : Nat → Bool) (l : List Nat) :
    l.dropWhile p = l.drop (l.takeWhile p).length := by
  induction l with
  | nil => rfl
  | cons a t ih =>
    by_cases h : p a
    · simp [List.takeWhile_cons, List.dropWhile_cons, h, ih]
    · simp [List.takeWhile_cons, List.dropWhile_cons, h]

theorem drop_succ_eq_tail_drop (l : List Nat) (q : Nat) :
    l.drop (q + 1) = (l.drop q).tail := by
  induction l generalizing q with
  | nil => simp
  | cons a t ih =>
    cases q with
    | zero => simp
    | succ q => simpa using ih q

/-- Where the scan loops land: with enough fuel and a predicate rejecting
the byte `0`, `scanWhile` from a well-formed state moves the cursor past
exactly the `takeWhile p` run of the remaining input. -/
theorem scanWhile_eq (p : Nat → Bool) (hp : p 0 = false) :
    ∀ (fuel : Nat) (s : Lexer), Wf s → s.input.length ≤ s.position + fuel →
      scanWhile p fuel s =
        stateAt s.input (s.position + ((s.input.drop s.position).takeWhile p).length) := by
  intro fuel
  induction fuel with
  | zero =>
    intro s hw hf
    have hd : s.input.drop s.position = [] := List.drop_eq_nil_of_le (by simpa using hf)
    rw [scanWhile, hd]
    simpa using hw.eq_stateAt
  | succ fuel ih =>
    intro s hw hf
    have hch : s.ch = (s.input.drop s.position).headD 0 := by
      rw [headD_drop]
      exact hw.2
    rw [scanWhile]
    by_cases hc : p s.ch
    · cases hrest : s.input.drop s.position with
      | nil =>
        rw [hrest] at hch
        simp only [List.headD_nil] at hch
        rw [hch, hp] at hc
        exact absurd hc (by simp)
      | cons c rest' =>
        have hcc : s.ch = c := by
          rw [hch, hrest]
          rfl
        have hpc : p c = true := by
          rw [← hcc]
          exact hc
        rw [if_pos hc, read_char_eq, hw.1]
        rw [ih (stateAt s.input (s.position + 1)) (Wf_stateAt _ _)
          (by simp only [stateAt]; omega)]
        have hdrop : s.input.drop (s.position + 1) = rest' := by
          rw [← List.tail_drop, hrest]
          rfl
        simp only [stateAt, hdrop, hrest, List.takeWhile_cons, hpc, if_pos, List.length_cons]
        have harith : s.position + 1 + (List.takeWhile p rest').length
            = s.position + ((List.takeWhile p rest').length + 1) := by omega
        rw [harith]
    · rw [if_neg hc]
      have htw : ((s.input.drop s.position).takeWhile p).length = 0 := by
        cases hrest : s.input.drop s.position with
        | nil => rfl
        | cons c rest' =>
          have hcc : s.ch = c := by
            rw [hch, hrest]
            rfl
          rw [List.takeWhile_cons, ← hcc, if_neg hc]
          rfl
      rw [htw]
      simpa using hw.eq_stateAt

@[simp] theorem stateAt_position (input : List Nat) (q : Nat) :
    (stateAt input q).position = q := rfl

@[simp] theorem stateAt_read_position (input : List Nat) (q : Nat) :
    (stateAt input q).read_position = q + 1 := rfl

@[simp] theorem stateAt_ch (input : List Nat) (q : Nat) :
    (stateAt input q).ch = input.getD q 0 := rfl

@[simp] theorem stateAt_input (input : List Nat) (q : Nat) :
    (stateAt input q).input = input := rfl

theorem read_char_stateAt (input : List Nat) (q : Nat) :
    read_char (stateAt input q) = stateAt input (q + 1) := by
  rw [read_char_eq]
  rfl

theorem skip_whitespace_stateAt (input : List Nat) (q : Nat) :
    skip_whitespace (stateAt input q) =
      stateAt input (q + ((input.drop q).takeWhile is_ascii_whitespace).length) := by
  unfold skip_whitespace
  rw [scanWhile_eq is_ascii_whitespace rfl _ _ (Wf_stateAt _ _) (by simp; omega)]
  simp

theorem slice_from_stateAt (input : List Nat) (q k : Nat) :
    slice_from (stateAt input (q + k)) q = (input.drop q).take k := by
  unfold slice_from stateAt
  simp

theorem read_match_any_stateAt (bs : List Nat) (hb : bs.contains 0 = false)
    (input : List Nat) (q : Nat) :
    read_match_any bs (stateAt input q) =
      ((input.drop q).takeWhile (fun c => bs.contains c),
        stateAt input (q + ((input.drop q).takeWhile (fun c => bs.contains c)).length)) := by
  unfold read_match_any
  rw [scanWhile_eq (fun c => bs.contains c) hb _ _ (Wf_stateAt _ _) (by simp; omega)]
  simp only [stateAt_position, stateAt_input]
  rw [slice_from_stateAt, take_takeWhile]

theorem read_match_stateAt (mb : Nat) (hb : mb ≠ 0) (input : List Nat) (q : Nat) :
    read_match mb (stateAt input q) =
      ((input.drop q).takeWhile (fun c => c = mb),
        stateAt input (q + ((input.drop q).takeWhile (fun c => c = mb)).length) ) := by
  unfold read_match
  rw [scanWhile_eq (fun c => decide (c = mb)) (by simp [Ne.symm hb]) _ _ (Wf_stateAt _ _)
    (by simp; omega)]
  simp only [stateAt_position, stateAt_input]
  rw [slice_from_stateAt, take_takeWhile]

theorem read_int_stateAt (input : List Nat) (q : Nat) :
    read_int (stateAt input q) =
      ((input.drop q).takeWhile is_ascii_digit,
        stateAt input (q + ((input.drop q).takeWhile is_ascii_digit).length)) := by
  unfold read_int
  rw [scanWhile_eq is_ascii_digit rfl _ _ (Wf_stateAt _ _) (by simp; omega)]
  simp only [stateAt_position, stateAt_input]
  rw [slice_from_stateAt, take_takeWhile]

theorem read_ident_stateAt_neg (input : List Nat) (q : Nat)
    (hc : ¬ (is_ascii_alphabetic ((stateAt input q).ch) || (stateAt input q).ch = 95)) :
    read_ident (stateAt input q) = ([], stateAt input q) := by
  unfold read_ident
  rw [if_neg hc]
  unfold slice_from
  simp

theorem read_ident_stateAt_pos (input : List Nat) (q : Nat)
    (hc : is_ascii_alphabetic ((stateAt input q).ch) || (stateAt input q).ch = 95) :
    read_ident (stateAt input q) =
      ((input.drop q).takeWhile ident_cont,
        stateAt input (q + ((input.drop q).takeWhile ident_cont).length)) := by
  have hch0 : (stateAt input q).ch ≠ 0 := by
    intro h0
    rw [h0] at hc
    exact absurd hc (by decide)
  have hlt : q < input.length := by
    by_contra hge
    exact hch0 (List.getD_eq_default _ _ (by omega))
  have hdrop : input.drop q = input.getD q 0 :: input.drop (q + 1) := by
    have hne : input.drop q ≠ [] := by
      intro h
      have := congrArg List.length h
      simp at this
      omega
    cases hr : input.drop q with
    | nil => exact absurd hr hne
    | cons a tl =>
      have ha : a = input.getD q 0 := by
        rw [← headD_drop input q, hr]
        rfl
      have htl : tl = input.drop (q + 1) := by
        rw [← List.tail_drop input q, hr]
        rfl
      rw [ha, htl]
  have hc' : (is_ascii_alphabetic (input.getD q 0) || decide (input.getD q 0 = 95)) = true := hc
  have hcont : ident_cont (input.getD q 0) = true := by
    unfold ident_cont is_ascii_alphanumeric
    rcases Bool.or_eq_true_iff.mp hc' with h | h
    · simp at h ⊢
      exact Or.inl (Or.inl h)
    · simp at h ⊢
      exact Or.inr h
  unfold read_ident
  rw [if_pos hc, read_char_stateAt]
  rw [scanWhile_eq ident_cont rfl _ _ (Wf_stateAt _ _) (by simp; omega)]
  simp only [stateAt_position, stateAt_input]
  have harith : q + 1 + ((input.drop (q + 1)).takeWhile ident_cont).length
      = q + (((input.drop (q + 1)).takeWhile ident_cont).length + 1) := by omega
  rw [harith, slice_from_stateAt, hdrop, List.takeWhile_cons, if_pos hcont]
  rw [List.take_succ_cons, take_takeWhile]
  simp

/-- List-level restatement of `next_token`: acting on the bytes still ahead
of the cursor, it returns the token and the total number of positions the
cursor moves (whitespace skipped plus bytes consumed; the `Eof` arm moves
the cursor one step past the end).  `next_token_stateAt` below proves it
equivalent to `next_token` on well-formed states. -/
def nextTokenL (r : List Nat) : Option (Token × Nat) :=
  let t := (r.takeWhile is_ascii_whitespace).length
  let r' := r.dropWhile is_ascii_whitespace
  let c := r'.headD 0
  if c = 123 then some (Token.LSquirly, t + 1)
  else if c = 125 then some (Token.RSquirly, t + 1)
  else if c = 40 then some (Token.Lparen, t + 1)
  else if c = 41 then some (Token.Rparen, t + 1)
  else if c = 44 then some (Token.Comma, t + 1)
  else if c = 59 then some (Token.Semicolon, t + 1)
  else if c = 43 then
    let run := r'.takeWhile (fun b => List.contains [43, 61] b)
    some (if run = [43, 61] then Token.PlusEqual else Token.Plus, t + run.length)
  else if c = 61 then some (Token.Equal, t + 1)
  else if is_ascii_alphabetic c || c = 95 then
    let run := r'.takeWhile ident_cont
    some (keyword_lookup run, t + run.length)
  else if is_ascii_digit c then
    let run := r'.takeWhile is_ascii_digit
    some (Token.Int run, t + run.length)
  else if c = 0 then some (Token.Eof, t + 1)
  else if c = 46 then
    let run := r'.takeWhile (fun b => List.contains [46, 61] b)
    if run = [46] then some (Token.Period, t + run.length)
    else if run = [46, 46] then some (Token.Range, t + run.length)
    else if run = [46, 46, 61] then some (Token.RangeInclusive, t + run.length)
    else if run = [46, 46, 46] then some (Token.DefaultFields, t + run.length)
    else none
  else if c = 58 then
    let run := r'.takeWhile (fun b => b = 58)
    some (if run = [58, 58] then Token.DoubleColon else Token.Colon, t + run.length)
  else if c = 45 then
    let run := r'.takeWhile (fun b => List.contains [45, 61, 62] b)
    some (if run = [45, 61] then Token.MinusEqual
      else if run = [45, 62] then Token.Arrow
      else Token.Minus, t + run.length)
  else none

/-- The bridge: on the canonical state with cursor `q0`, `next_token`
behaves as `nextTokenL` on the remaining bytes, landing on the canonical
state advanced by the consumed count. -/
theorem next_token_stateAt (input : List Nat) (q0 : Nat) :
    next_token (stateAt input q0) =
      (nextTokenL (input.drop q0)).map (fun x => (x.1, stateAt input (q0 + x.2))) := by
  simp only [next_token, nextTokenL]
  rw [skip_whitespace_stateAt]
  set t := ((input.drop q0).takeWhile is_ascii_whitespace).length with htdef
  set r' := (input.drop q0).dropWhile is_ascii_whitespace with hrdef
  have hdq : input.drop (q0 + t) = r' := by
    rw [hrdef, dropWhile_eq_drop_len, htdef]
    exact (List.drop_drop t q0 input).symm
  have hch : (stateAt input (q0 + t)).ch = r'.headD 0 := by
    rw [stateAt_ch, ← headD_drop, hdq]
  rw [hch, read_char_stateAt, read_match_any_stateAt [43, 61] (by decide),
    read_match_any_stateAt [46, 61] (by decide),
    read_match_any_stateAt [45, 61, 62] (by decide),
    read_match_stateAt 58 (by decide), read_int_stateAt, hdq]
  by_cases h1 : r'.headD 0 = 123
  · simp only [if_pos h1, Option.map_some']
    rw [← Nat.add_assoc]
  simp only [if_neg h1]
  by_cases h2 : r'.headD 0 = 125
  · simp only [if_pos h2, Option.map_some']
    rw [← Nat.add_assoc]
  simp only [if_neg h2]
  by_cases h3 : r'.headD 0 = 40
  · simp only [if_pos h3, Option.map_some']
    rw [← Nat.add_assoc]
  simp only [if_neg h3]
  by_cases h4 : r'.headD 0 = 41
  · simp only [if_pos h4, Option.map_some']
    rw [← Nat.add_assoc]
  simp only [if_neg h4]
  by_cases h5 : r'.headD 0 = 44
  · simp only [if_pos h5, Option.map_some']
    rw [← Nat.add_assoc]
  simp only [if_neg h5]
  by_cases h6 : r'.headD 0 = 59
  · simp only [if_pos h6, Option.map_some']
    rw [← Nat.add_assoc]
  simp only [if_neg h6]
  by_cases h7 : r'.headD 0 = 43
  · simp only [if_pos h7, Option.map_some']
    rw [← Nat.add_assoc]
  simp only [if_neg h7]
  by_cases h8 : r'.headD 0 = 61
  · simp only [if_pos h8, Option.map_some']
    rw [← Nat.add_assoc]
  simp only [if_neg h8]
  by_cases h9 : is_ascii_alphabetic (r'.headD 0) || r'.headD 0 = 95
  · rw [read_ident_stateAt_pos input (q0 + t) (by rw [hch]; exact h9), hdq]
    simp only [if_pos h9, Option.map_some']
    rw [← Nat.add_assoc]
  simp only [if_neg h9]
  by_cases h10 : is_ascii_digit (r'.headD 0)
  · simp only [if_pos h10, Option.map_some']
    rw [← Nat.add_assoc]
  simp only [if_neg h10]
  by_cases h11 : r'.headD 0 = 0
  · simp only [if_pos h11, Option.map_some']
    rw [← Nat.add_assoc]
  simp only [if_neg h11]
  by_cases h12 : r'.headD 0 = 46
  · simp only [if_pos h12]
    by_cases h12a : r'.takeWhile (fun b => List.contains [46, 61] b) = [46]
    · simp only [if_pos h12a, Option.map_some']
      rw [← Nat.add_assoc]
    simp only [if_neg h12a]
    by_cases h12b : r'.takeWhile (fun b => List.contains [46, 61] b) = [46, 46]
    · simp only [if_pos h12b, Option.map_some']
      rw [← Nat.add_assoc]
    simp only [if_neg h12b]
    by_cases h12c : r'.takeWhile (fun b => List.contains [46, 61] b) = [46, 46, 61]
    · simp only [if_pos h12c, Option.map_some']
      rw [← Nat.add_assoc]
    simp only [if_neg h12c]
    by_cases h12d : r'.takeWhile (fun b => List.contains [46, 61] b) = [46, 46, 46]
    · simp only [if_pos h12d, Option.map_some']
      rw [← Nat.add_assoc]
    simp only [if_neg h12d]
    rfl
  simp only [if_neg h12]
  by_cases h13 : r'.headD 0 = 58
  · simp only [if_pos h13, Option.map_some']
    rw [← Nat.add_assoc]
  simp only [if_neg h13]
  by_cases h14 : r'.headD 0 = 45
  · simp only [if_pos h14, Option.map_some']
    rw [← Nat.add_assoc]
  simp only [if_neg h14]
  rfl

/-- The bridge on any well-formed state. -/
theorem next_token_eq_list (s : Lexer) (hw : Wf s) :
    next_token s =
      (nextTokenL (s.input.drop s.position)).map
        (fun x => (x.1, stateAt s.input (s.position + x.2))) := by
  rw [hw.eq_stateAt]
  exact next_token_stateAt s.input s.position

theorem length_takeWhile_le' (p : Nat → Bool) (l : List Nat) :
    (l.takeWhile p).length ≤ l.length := by
  induction l with
  | nil => simp
  | cons a tl ih =>
    rw [List.takeWhile_cons]
    by_cases h : p a
    · simp only [if_pos h, List.length_cons]
      omega
    · simp only [if_neg h, List.length_nil]
      omega

theorem takeWhile_len_sum (p : Nat → Bool) (l : List Nat) :
    (l.takeWhile p).length + (l.dropWhile p).length = l.length := by
  rw [← List.length_append, List.takeWhile_append_dropWhile]

/-- Every `some` result of `nextTokenL` consumes at least one position, and
a non-`Eof` result consumes at most the remaining input (`Eof` is the only
token that can move the cursor past the end). -/
theorem nextTokenL_consumed (r : List Nat) (tok : Token) (k : Nat)
    (h : nextTokenL r = some (tok, k)) :
    1 ≤ k ∧ (tok ≠ Token.Eof → k ≤ r.length) := by
  have hsum := takeWhile_len_sum is_ascii_whitespace r
  have hone : (r.dropWhile is_ascii_whitespace).headD 0 ≠ 0 →
      1 ≤ (r.dropWhile is_ascii_whitespace).length := by
    intro h0
    cases hR : r.dropWhile is_ascii_whitespace with
    | nil =>
      rw [hR] at h0
      simp at h0
    | cons a tl => simp [hR]
  have key : ∀ p : Nat → Bool, p ((r.dropWhile is_ascii_whitespace).headD 0) = true →
      (r.dropWhile is_ascii_whitespace).headD 0 ≠ 0 →
      1 ≤ ((r.dropWhile is_ascii_whitespace).takeWhile p).length ∧
        ((r.dropWhile is_ascii_whitespace).takeWhile p).length
          ≤ (r.dropWhile is_ascii_whitespace).length := by
    intro p hp h0
    refine ⟨?_, length_takeWhile_le' p _⟩
    cases hR : r.dropWhile is_ascii_whitespace with
    | nil =>
      rw [hR] at h0
      simp at h0
    | cons a tl =>
      rw [hR] at hp
      simp only [List.headD_cons] at hp
      rw [List.takeWhile_cons, if_pos hp]
      simp
  simp only [nextTokenL] at h
  by_cases c1 : (r.dropWhile is_ascii_whitespace).headD 0 = 123
  · rw [if_pos c1] at h
    obtain ⟨-, hk⟩ := Prod.ext_iff.mp (Option.some.inj h)
    have hr := hone (by rw [c1]; decide)
    exact ⟨by omega, fun _ => by omega⟩
  rw [if_neg c1] at h
  by_cases c2 : (r.dropWhile is_ascii_whitespace).headD 0 = 125
  · rw [if_pos c2] at h
    obtain ⟨-, hk⟩ := Prod.ext_iff.mp (Option.some.inj h)
    have hr := hone (by rw [c2]; decide)
    exact ⟨by omega, fun _ => by omega⟩
  rw [if_neg c2] at h
  by_cases c3 : (r.dropWhile is_ascii_whitespace).headD 0 = 40
  · rw [if_pos c3] at h
    obtain ⟨-, hk⟩ := Prod.ext_iff.mp (Option.some.inj h)
    have hr := hone (by rw [c3]; decide)
    exact ⟨by omega, fun _ => by omega⟩
  rw [if_neg c3] at h
  by_cases c4 : (r.dropWhile is_ascii_whitespace).headD 0 = 41
  · rw [if_pos c4] at h
    obtain ⟨-, hk⟩ := Prod.ext_iff.mp (Option.some.inj h)
    have hr := hone (by rw [c4]; decide)
    exact ⟨by omega, fun _ => by omega⟩
  rw [if_neg c4] at h
  by_cases c5 : (r.dropWhile is_ascii_whitespace).headD 0 = 44
  · rw [if_pos c5] at h
    obtain ⟨-, hk⟩ := Prod.ext_iff.mp (Option.some.inj h)
    have hr := hone (by rw [c5]; decide)
    exact ⟨by omega, fun _ => by omega⟩
  rw [if_neg c5] at h
  by_cases c6 : (r.dropWhile is_ascii_whitespace).headD 0 = 59
  · rw [if_pos c6] at h
    obtain ⟨-, hk⟩ := Prod.ext_iff.mp (Option.some.inj h)
    have hr := hone (by rw [c6]; decide)
    exact ⟨by omega, fun _ => by omega⟩
  rw [if_neg c6] at h
  by_cases c7 : (r.dropWhile is_ascii_whitespace).headD 0 = 43
  · rw [if_pos c7] at h
    obtain ⟨-, hk⟩ := Prod.ext_iff.mp (Option.some.inj h)
    obtain ⟨hp1, hp2⟩ := key (fun b => List.contains [43, 61] b)
      (by rw [c7]; decide) (by rw [c7]; decide)
    exact ⟨by omega, fun _ => by omega⟩
  rw [if_neg c7] at h
  by_cases c8 : (r.dropWhile is_ascii_whitespace).headD 0 = 61
  · rw [if_pos c8] at h
    obtain ⟨-, hk⟩ := Prod.ext_iff.mp (Option.some.inj h)
    have hr := hone (by rw [c8]; decide)
    exact ⟨by omega, fun _ => by omega⟩
  rw [if_neg c8] at h
  by_cases c9 : is_ascii_alphabetic ((r.dropWhile is_ascii_whitespace).headD 0)
      || (r.dropWhile is_ascii_whitespace).headD 0 = 95
  · rw [if_pos c9] at h
    obtain ⟨-, hk⟩ := Prod.ext_iff.mp (Option.some.inj h)
    have h0 : (r.dropWhile is_ascii_whitespace).headD 0 ≠ 0 := by
      intro hz
      rw [hz] at c9
      exact absurd c9 (by decide)
    have hcont : ident_cont ((r.dropWhile is_ascii_whitespace).headD 0) = true := by
      unfold ident_cont is_ascii_alphanumeric
      rcases Bool.or_eq_true_iff.mp c9 with hx | hx
      · rw [hx]
        simp
      · rw [hx]
        simp
    obtain ⟨hp1, hp2⟩ := key _ hcont h0
    exact ⟨by omega, fun _ => by omega⟩
  rw [if_neg c9] at h
  by_cases c10 : is_ascii_digit ((r.dropWhile is_ascii_whitespace).headD 0)
  · rw [if_pos c10] at h
    obtain ⟨-, hk⟩ := Prod.ext_iff.mp (Option.some.inj h)
    have h0 : (r.dropWhile is_ascii_whitespace).headD 0 ≠ 0 := by
      intro hz
      rw [hz] at c10
      exact absurd c10 (by decide)
    obtain ⟨hp1, hp2⟩ := key _ c10 h0
    exact ⟨by omega, fun _ => by omega⟩
  rw [if_neg c10] at h
  by_cases c11 : (r.dropWhile is_ascii_whitespace).headD 0 = 0
  · rw [if_pos c11] at h
    obtain ⟨htok, hk⟩ := Prod.ext_iff.mp (Option.some.inj h)
    refine ⟨by omega, fun hne => absurd htok.symm hne⟩
  rw [if_neg c11] at h
  by_cases c12 : (r.dropWhile is_ascii_whitespace).headD 0 = 46
  · rw [if_pos c12] at h
    obtain ⟨hp1, hp2⟩ := key (fun b => List.contains [46, 61] b)
      (by rw [c12]; decide) (by rw [c12]; decide)
    by_cases d1 : (r.dropWhile is_ascii_whitespace).takeWhile (fun b => List.contains [46, 61] b)
        = [46]
    · rw [if_pos d1] at h
      obtain ⟨-, hk⟩ := Prod.ext_iff.mp (Option.some.inj h)
      exact ⟨by omega, fun _ => by omega⟩
    rw [if_neg d1] at h
    by_cases d2 : (r.dropWhile is_ascii_whitespace).takeWhile (fun b => List.contains [46, 61] b)
        = [46, 46]
    · rw [if_pos d2] at h
      obtain ⟨-, hk⟩ := Prod.ext_iff.mp (Option.some.inj h)
      exact ⟨by omega, fun _ => by omega⟩
    rw [if_neg d2] at h
    by_cases d3 : (r.dropWhile is_ascii_whitespace).takeWhile (fun b => List.contains [46, 61] b)
        = [46, 46, 61]
    · rw [if_pos d3] at h
      obtain ⟨-, hk⟩ := Prod.ext_iff.mp (Option.some.inj h)
      exact ⟨by omega, fun _ => by omega⟩
    rw [if_neg d3] at h
    by_cases d4 : (r.dropWhile is_ascii_whitespace).takeWhile (fun b => List.contains [46, 61] b)
        = [46, 46, 46]
    · rw [if_pos d4] at h
      obtain ⟨-, hk⟩ := Prod.ext_iff.mp (Option.some.inj h)
      exact ⟨by omega, fun _ => by omega⟩
    rw [if_neg d4] at h
    exact Option.noConfusion h
  rw [if_neg c12] at h
  by_cases c13 : (r.dropWhile is_ascii_whitespace).headD 0 = 58
  · rw [if_pos c13] at h
    obtain ⟨-, hk⟩ := Prod.ext_iff.mp (Option.some.inj h)
    obtain ⟨hp1, hp2⟩ := key (fun b => decide (b = 58))
      (by rw [c13]; decide) (by rw [c13]; decide)
    exact ⟨by omega, fun _ => by omega⟩
  rw [if_neg c13] at h
  by_cases c14 : (r.dropWhile is_ascii_whitespace).headD 0 = 45
  · rw [if_pos c14] at h
    obtain ⟨-, hk⟩ := Prod.ext_iff.mp (Option.some.inj h)
    obtain ⟨hp1, hp2⟩ := key (fun b => List.contains [45, 61, 62] b)
      (by rw [c14]; decide) (by rw [c14]; decide)
    exact ⟨by omega, fun _ => by omega⟩
  rw [if_neg c14] at h
  exact Option.noConfusion h

/-- One `next_token` step from a well-formed state: the result state is
well-formed over the same input, the cursor strictly advances, and unless
the token is `Eof` it stays within the input. -/
theorem next_token_step (s : Lexer) (tk : Token) (s' : Lexer) (hw : Wf s)
    (h : next_token s = some (tk, s')) :
    Wf s' ∧ s'.input = s.input ∧ s.position < s'.position ∧
      (tk ≠ Token.Eof → s'.position ≤ s.input.length) := by
  rw [next_token_eq_list s hw] at h
  cases hL : nextTokenL (s.input.drop s.position) with
  | none =>
    rw [hL] at h
    simp at h
  | some x =>
    obtain ⟨tok, k⟩ := x
    rw [hL] at h
    simp only [Option.map_some', Option.some.injEq, Prod.mk.injEq] at h
    obtain ⟨htok, hs'⟩ := h
    obtain ⟨hk1, hk2⟩ := nextTokenL_consumed _ _ _ hL
    have hlenr : (s.input.drop s.position).length = s.input.length - s.position :=
      List.length_drop _ _
    subst htok
    refine ⟨hs' ▸ Wf_stateAt _ _, hs' ▸ rfl, hs' ▸ ?_, fun hne => hs' ▸ ?_⟩
    · simp
      omega
    · have := hk2 hne
      simp
      omega

theorem Lexer_new_eq (input : List Nat) : Lexer.new input = stateAt input 0 := by
  unfold Lexer.new
  rw [read_char_eq]

/-! ## Whitespace insensitivity

`WsAlign r1 r2` relates two byte lists that agree except in the length and
kind of their (non-empty) whitespace runs. -/

inductive WsAlign : List Nat → List Nat → Prop where
  | nil : WsAlign [] []
  | byte {c : Nat} {r1 r2 : List Nat} (hc : is_ascii_whitespace c = false)
      (h : WsAlign r1 r2) : WsAlign (c :: r1) (c :: r2)
  | ws {w1 w2 r1 r2 : List Nat}
      (hw1 : ∀ c ∈ w1, is_ascii_whitespace c = true)
      (hw2 : ∀ c ∈ w2, is_ascii_whitespace c = true)
      (hn1 : w1 ≠ []) (hn2 : w2 ≠ [])
      (h : WsAlign r1 r2) : WsAlign (w1 ++ r1) (w2 ++ r2)

theorem WsAlign_refl : ∀ l : List Nat, WsAlign l l := by
  intro l
  induction l with
  | nil => exact .nil
  | cons c tl ih =>
    by_cases hc : is_ascii_whitespace c
    · exact @WsAlign.ws [c] [c] tl tl (by simpa using hc) (by simpa using hc)
        (by simp) (by simp) ih
    · exact WsAlign.byte (by simpa using hc) ih

theorem WsAlign_nil_iff {r1 r2 : List Nat} (h : WsAlign r1 r2) : r1 = [] ↔ r2 = [] := by
  induction h with
  | nil => simp
  | byte hc h ih => simp
  | ws hw1 hw2 hn1 hn2 h ih =>
    constructor
    · intro he
      exact absurd (List.append_eq_nil.mp he).1 hn1
    · intro he
      exact absurd (List.append_eq_nil.mp he).1 hn2

theorem WsAlign_cons_inv_aux {r1 r2 : List Nat} (h : WsAlign r1 r2) :
    ∀ c a d b, r1 = c :: a → r2 = d :: b → is_ascii_whitespace c = false →
      c = d ∧ WsAlign a b := by
  induction h with
  | nil =>
    intro c a d b h1 h2 hcws
    exact absurd h1 (by simp)
  | @byte c0 r10 r20 hcb hrest ih =>
    intro c a d b h1 h2 hcws
    injection h1 with e1 e2
    injection h2 with e3 e4
    subst e2
    subst e4
    exact ⟨e1 ▸ e3, hrest⟩
  | @ws w1 w2 r10 r20 hw1 hw2 hn1 hn2 hrest ih =>
    intro c a d b h1 h2 hcws
    cases w1 with
    | nil => exact absurd rfl hn1
    | cons x xs =>
      have hx : x = c := by
        rw [List.cons_append] at h1
        injection h1 with e1 e2
      have hxws : is_ascii_whitespace c = true := hx ▸ hw1 x (by simp)
      exact absurd hxws (by simp [hcws])

theorem WsAlign_cons_inv {c d : Nat} {a b : List Nat}
    (h : WsAlign (c :: a) (d :: b)) (hc : is_ascii_whitespace c = false) :
    c = d ∧ WsAlign a b :=
  WsAlign_cons_inv_aux h c a d b rfl rfl hc

theorem dropWhile_append_all (p : Nat → Bool) (w l : List Nat)
    (hw : ∀ c ∈ w, p c = true) :
    (w ++ l).dropWhile p = l.dropWhile p := by
  induction w with
  | nil => rfl
  | cons x xs ih =>
    rw [List.cons_append, List.dropWhile_cons, if_pos (hw x (by simp))]
    exact ih (fun c hc => hw c (by simp [hc]))

theorem WsAlign_strip {r1 r2 : List Nat} (h : WsAlign r1 r2) :
    WsAlign (r1.dropWhile is_ascii_whitespace) (r2.dropWhile is_ascii_whitespace) ∧
      (r1.dropWhile is_ascii_whitespace).headD 0
        = (r2.dropWhile is_ascii_whitespace).headD 0 := by
  induction h with
  | nil => exact ⟨.nil, rfl⟩
  | @byte c r10 r20 hc hrest ih =>
    rw [List.dropWhile_cons, List.dropWhile_cons, if_neg (by simp [hc]), if_neg (by simp [hc])]
    exact ⟨.byte hc hrest, rfl⟩
  | @ws w1 w2 r10 r20 hw1 hw2 hn1 hn2 hrest ih =>
    rw [dropWhile_append_all _ _ _ hw1, dropWhile_append_all _ _ _ hw2]
    exact ih

theorem WsAlign_takeWhile (p : Nat → Bool)
    (hp : ∀ c, is_ascii_whitespace c = true → p c = false) :
    ∀ {r1 r2 : List Nat}, WsAlign r1 r2 →
      r1.takeWhile p = r2.takeWhile p ∧
        WsAlign (r1.drop (r1.takeWhile p).length) (r2.drop (r2.takeWhile p).length) := by
  intro r1 r2 h
  induction h with
  | nil => exact ⟨rfl, .nil⟩
  | @byte c r10 r20 hc hrest ih =>
    obtain ⟨htw, hdw⟩ := ih
    by_cases hpc : p c
    · constructor
      · rw [List.takeWhile_cons, List.takeWhile_cons, if_pos hpc, if_pos hpc, htw]
      · rw [List.takeWhile_cons, List.takeWhile_cons, if_pos hpc, if_pos hpc]
        simp only [List.length_cons, List.drop_succ_cons]
        exact hdw
    · constructor
      · rw [List.takeWhile_cons, List.takeWhile_cons, if_neg hpc, if_neg hpc]
      · rw [List.takeWhile_cons, List.takeWhile_cons, if_neg hpc, if_neg hpc]
        simp only [List.length_nil, List.drop_zero]
        exact .byte hc hrest
  | @ws w1 w2 r10 r20 hw1 hw2 hn1 hn2 hrest ih =>
    cases w1 with
    | nil => exact absurd rfl hn1
    | cons x xs =>
      cases w2 with
      | nil => exact absurd rfl hn2
      | cons y ys =>
        have hpx : p x = false := hp x (hw1 x (by simp))
        have hpy : p y = false := hp y (hw2 y (by simp))
        constructor
        · rw [List.cons_append, List.cons_append, List.takeWhile_cons, List.takeWhile_cons,
            if_neg (by simp [hpx]), if_neg (by simp [hpy])]
        · rw [List.cons_append, List.cons_append, List.takeWhile_cons, List.takeWhile_cons,
            if_neg (by simp [hpx]), if_neg (by simp [hpy])]
          simp only [List.length_nil, List.drop_zero]
          exact WsAlign.ws hw1 hw2 hn1 hn2 hrest

theorem WsAlign_tail {r1 r2 : List Nat} (h : WsAlign r1 r2)
    (hh : is_ascii_whitespace (r1.headD 0) = false) :
    WsAlign (r1.drop 1) (r2.drop 1) := by
  cases r1 with
  | nil =>
    have h2 : r2 = [] := (WsAlign_nil_iff h).mp rfl
    subst h2
    exact .nil
  | cons c a =>
    cases r2 with
    | nil => exact absurd ((WsAlign_nil_iff h).mpr rfl) (by simp)
    | cons d b =>
      obtain ⟨-, hab⟩ := WsAlign_cons_inv h (by simpa using hh)
      simpa using hab

theorem ws_false_of (p : Nat → Bool) (h32 : p 32 = false) (h9 : p 9 = false)
    (h10 : p 10 = false) (h12 : p 12 = false) (h13 : p 13 = false) :
    ∀ c, is_ascii_whitespace c = true → p c = false := by
  intro c hc
  unfold is_ascii_whitespace at hc
  simp at hc
  rcases hc with (((rfl | rfl) | rfl) | rfl) | rfl <;> assumption

/-- One scanning step respects whitespace alignment: on `WsAlign`-related
remainders, `nextTokenL` either panics on both or yields the same token on
both, leaving `WsAlign`-related remainders. -/
theorem nextTokenL_congr {r1 r2 : List Nat} (h : WsAlign r1 r2) :
    (nextTokenL r1 = none ∧ nextTokenL r2 = none) ∨
      ∃ tok k1 k2, nextTokenL r1 = some (tok, k1) ∧ nextTokenL r2 = some (tok, k2) ∧
        WsAlign (r1.drop k1) (r2.drop k2) := by
  obtain ⟨halign, hhead⟩ := WsAlign_strip h
  have hd1 : ∀ k : Nat, r1.drop ((r1.takeWhile is_ascii_whitespace).length + k)
      = (r1.dropWhile is_ascii_whitespace).drop k := by
    intro k
    rw [← List.drop_drop, dropWhile_eq_drop_len]
  have hd2 : ∀ k : Nat, r2.drop ((r2.takeWhile is_ascii_whitespace).length + k)
      = (r2.dropWhile is_ascii_whitespace).drop k := by
    intro k
    rw [← List.drop_drop, dropWhile_eq_drop_len]
  have onestep : is_ascii_whitespace ((r1.dropWhile is_ascii_whitespace).headD 0) = false →
      WsAlign (r1.drop ((r1.takeWhile is_ascii_whitespace).length + 1))
        (r2.drop ((r2.takeWhile is_ascii_whitespace).length + 1)) := by
    intro hnws
    rw [hd1, hd2]
    exact WsAlign_tail halign hnws
  have runstep : ∀ p : Nat → Bool, (∀ c, is_ascii_whitespace c = true → p c = false) →
      (r1.dropWhile is_ascii_whitespace).takeWhile p
          = (r2.dropWhile is_ascii_whitespace).takeWhile p ∧
        WsAlign (r1.drop ((r1.takeWhile is_ascii_whitespace).length
            + ((r1.dropWhile is_ascii_whitespace).takeWhile p).length))
          (r2.drop ((r2.takeWhile is_ascii_whitespace).length
            + ((r2.dropWhile is_ascii_whitespace).takeWhile p).length)) := by
    intro p hp
    obtain ⟨htw, hdw⟩ := WsAlign_takeWhile p hp halign
    refine ⟨htw, ?_⟩
    rw [hd1, hd2]
    exact hdw
  simp only [nextTokenL]
  rw [← hhead]
  by_cases c1 : (r1.dropWhile is_ascii_whitespace).headD 0 = 123
  · simp only [if_pos c1]
    exact Or.inr ⟨_, _, _, rfl, rfl, onestep (by rw [c1]; decide)⟩
  simp only [if_neg c1]
  by_cases c2 : (r1.dropWhile is_ascii_whitespace).headD 0 = 125
  · simp only [if_pos c2]
    exact Or.inr ⟨_, _, _, rfl, rfl, onestep (by rw [c2]; decide)⟩
  simp only [if_neg c2]
  by_cases c3 : (r1.dropWhile is_ascii_whitespace).headD 0 = 40
  · simp only [if_pos c3]
    exact Or.inr ⟨_, _, _, rfl, rfl, onestep (by rw [c3]; decide)⟩
  simp only [if_neg c3]
  by_cases c4 : (r1.dropWhile is_ascii_whitespace).headD 0 = 41
  · simp only [if_pos c4]
    exact Or.inr ⟨_, _, _, rfl, rfl, onestep (by rw [c4]; decide)⟩
  simp only [if_neg c4]
  by_cases c5 : (r1.dropWhile is_ascii_whitespace).headD 0 = 44
  · simp only [if_pos c5]
    exact Or.inr ⟨_, _, _, rfl, rfl, onestep (by rw [c5]; decide)⟩
  simp only [if_neg c5]
  by_cases c6 : (r1.dropWhile is_ascii_whitespace).headD 0 = 59
  · simp only [if_pos c6]
    exact Or.inr ⟨_, _, _, rfl, rfl, onestep (by rw [c6]; decide)⟩
  simp only [if_neg c6]
  by_cases c7 : (r1.dropWhile is_ascii_whitespace).headD 0 = 43
  · simp only [if_pos c7]
    obtain ⟨hrun, hal⟩ := runstep (fun b => List.contains [43, 61] b)
      (ws_false_of _ (by decide) (by decide) (by decide) (by decide) (by decide))
    rw [← hrun] at hal ⊢
    exact Or.inr ⟨_, _, _, rfl, rfl, hal⟩
  simp only [if_neg c7]
  by_cases c8 : (r1.dropWhile is_ascii_whitespace).headD 0 = 61
  · simp only [if_pos c8]
    exact Or.inr ⟨_, _, _, rfl, rfl, onestep (by rw [c8]; decide)⟩
  simp only [if_neg c8]
  by_cases c9 : is_ascii_alphabetic ((r1.dropWhile is_ascii_whitespace).headD 0)
      || (r1.dropWhile is_ascii_whitespace).headD 0 = 95
  · simp only [if_pos c9]
    obtain ⟨hrun, hal⟩ := runstep ident_cont
      (ws_false_of _ (by decide) (by decide) (by decide) (by decide) (by decide))
    rw [← hrun] at hal ⊢
    exact Or.inr ⟨_, _, _, rfl, rfl, hal⟩
  simp only [if_neg c9]
  by_cases c10 : is_ascii_digit ((r1.dropWhile is_ascii_whitespace).headD 0)
  · simp only [if_pos c10]
    obtain ⟨hrun, hal⟩ := runstep is_ascii_digit
      (ws_false_of _ (by decide) (by decide) (by decide) (by decide) (by decide))
    rw [← hrun] at hal ⊢
    exact Or.inr ⟨_, _, _, rfl, rfl, hal⟩
  simp only [if_neg c10]
  by_cases c11 : (r1.dropWhile is_ascii_whitespace).headD 0 = 0
  · simp only [if_pos c11]
    exact Or.inr ⟨_, _, _, rfl, rfl, onestep (by rw [c11]; decide)⟩
  simp only [if_neg c11]
  by_cases c12 : (r1.dropWhile is_ascii_whitespace).headD 0 = 46
  · simp only [if_pos c12]
    obtain ⟨hrun, hal⟩ := runstep (fun b => List.contains [46, 61] b)
      (ws_false_of _ (by decide) (by decide) (by decide) (by decide) (by decide))
    rw [← hrun] at hal ⊢
    by_cases d1 : (r1.dropWhile is_ascii_whitespace).takeWhile
        (fun b => List.contains [46, 61] b) = [46]
    · simp only [if_pos d1]
      exact Or.inr ⟨_, _, _, rfl, rfl, hal⟩
    simp only [if_neg d1]
    by_cases d2 : (r1.dropWhile is_ascii_whitespace).takeWhile
        (fun b => List.contains [46, 61] b) = [46, 46]
    · simp only [if_pos d2]
      exact Or.inr ⟨_, _, _, rfl, rfl, hal⟩
    simp only [if_neg d2]
    by_cases d3 : (r1.dropWhile is_ascii_whitespace).takeWhile
        (fun b => List.contains [46, 61] b) = [46, 46, 61]
    · simp only [if_pos d3]
      exact Or.inr ⟨_, _, _, rfl, rfl, hal⟩
    simp only [if_neg d3]
    by_cases d4 : (r1.dropWhile is_ascii_whitespace).takeWhile
        (fun b => List.contains [46, 61] b) = [46, 46, 46]
    · simp only [if_pos d4]
      exact Or.inr ⟨_, _, _, rfl, rfl, hal⟩
    simp only [if_neg d4]
    exact Or.inl ⟨by trivial, by trivial⟩
  simp only [if_neg c12]
  by_cases c13 : (r1.dropWhile is_ascii_whitespace).headD 0 = 58
  · simp only [if_pos c13]
    obtain ⟨hrun, hal⟩ := runstep (fun b => decide (b = 58))
      (ws_false_of _ (by decide) (by decide) (by decide) (by decide) (by decide))
    rw [← hrun] at hal ⊢
    exact Or.inr ⟨_, _, _, rfl, rfl, hal⟩
  simp only [if_neg c13]
  by_cases c14 : (r1.dropWhile is_ascii_whitespace).headD 0 = 45
  · simp only [if_pos c14]
    obtain ⟨hrun, hal⟩ := runstep (fun b => List.contains [45, 61, 62] b)
      (ws_false_of _ (by decide) (by decide) (by decide) (by decide) (by decide))
    rw [← hrun] at hal ⊢
    exact Or.inr ⟨_, _, _, rfl, rfl, hal⟩
  simp only [if_neg c14]
  exact Or.inl ⟨by trivial, by trivial⟩

/-- Driving the scanner the same number of times over whitespace-aligned
states yields identical token sequences. -/
theorem lexAll_congr : ∀ (fuel : Nat) (s1 s2 : Lexer), Wf s1 → Wf s2 →
    WsAlign (s1.input.drop s1.position) (s2.input.drop s2.position) →
    lexAll fuel s1 = lexAll fuel s2 := by
  intro fuel
  induction fuel with
  | zero =>
    intro s1 s2 h1 h2 hal
    rfl
  | succ fuel ih =>
    intro s1 s2 hw1 hw2 hal
    simp only [lexAll]
    rw [next_token_eq_list s1 hw1, next_token_eq_list s2 hw2]
    rcases nextTokenL_congr hal with ⟨hn1, hn2⟩ | ⟨tok, k1, k2, h1, h2, hal'⟩
    · rw [hn1, hn2]
      rfl
    · rw [h1, h2]
      simp only [Option.map_some']
      show (if tok = Token.Eof then some [tok]
          else (lexAll fuel (stateAt s1.input (s1.position + k1))).map (fun ts => tok :: ts))
        = (if tok = Token.Eof then some [tok]
          else (lexAll fuel (stateAt s2.input (s2.position + k2))).map (fun ts => tok :: ts))
      have halnext : WsAlign
          ((stateAt s1.input (s1.position + k1)).input.drop
            (stateAt s1.input (s1.position + k1)).position)
          ((stateAt s2.input (s2.position + k2)).input.drop
            (stateAt s2.input (s2.position + k2)).position) := by
        simp only [stateAt_input, stateAt_position]
        rw [← List.drop_drop, ← List.drop_drop]
        exact hal'
      rw [ih _ _ (Wf_stateAt _ _) (Wf_stateAt _ _) halnext]

/-- Any two sufficient fuel values make `lexAll` agree: each non-`Eof` step
strictly shrinks `input.length + 1 - position`, so that many steps always
reach `Eof` (or a panic). -/
theorem lexAll_fuel : ∀ (f1 f2 : Nat) (s : Lexer), Wf s →
    s.position ≤ s.input.length →
    s.input.length + 1 - s.position ≤ f1 → s.input.length + 1 - s.position ≤ f2 →
    lexAll f1 s = lexAll f2 s := by
  intro f1
  induction f1 with
  | zero =>
    intro f2 s hw hb h1 h2
    exact absurd h1 (by omega)
  | succ f1 ih =>
    intro f2 s hw hb h1 h2
    cases f2 with
    | zero => exact absurd h2 (by omega)
    | succ f2 =>
      simp only [lexAll]
      cases hnt : next_token s with
      | none => rfl
      | some pr =>
        obtain ⟨tok, s'⟩ := pr
        obtain ⟨hw', hinp, hpos, hble⟩ := next_token_step s tok s' hw hnt
        show (if tok = Token.Eof then some [tok]
            else (lexAll f1 s').map (fun ts => tok :: ts))
          = (if tok = Token.Eof then some [tok]
            else (lexAll f2 s').map (fun ts => tok :: ts))
        by_cases he : tok = Token.Eof
        · rw [if_pos he, if_pos he]
        · rw [if_neg he, if_neg he,
            ih f2 s' hw' (by rw [hinp]; exact hble he) (by rw [hinp]; have := hble he; omega)
              (by rw [hinp]; have := hble he; omega)]

/-- `tokensOfString`'s default fuel can be replaced by any sufficient one. -/
theorem tokensOfString_lexAll (input : List Nat) (F : Nat)
    (hF : input.length + 1 ≤ F) :
    tokensOfString input = lexAll F (Lexer.new input) := by
  unfold tokensOfString
  apply lexAll_fuel
  · rw [Lexer_new_eq]
    exact Wf_stateAt _ _
  · rw [Lexer_new_eq]
    simp
  · rw [Lexer_new_eq]
    simp
  · rw [Lexer_new_eq]
    simp
    omega

/-- Words interleaved with separators: `w0 ++ s0 ++ w1 ++ s1 ++ ...`
(extra separators beyond `words.length - 1` are ignored; missing ones make
the remaining words adjacent). -/
def interleave : List (List Nat) → List (List Nat) → List Nat
  | [], _ => []
  | [w], _ => w
  | w :: ws, [] => w ++ interleave ws []
  | w :: ws, sep :: seps => w ++ (sep ++ interleave ws seps)

theorem WsAlign_append_bytes (w : List Nat)
    (hw : ∀ c ∈ w, is_ascii_whitespace c = false)
    {a b : List Nat} (h : WsAlign a b) : WsAlign (w ++ a) (w ++ b) := by
  induction w with
  | nil => simpa using h
  | cons x xs ih =>
    rw [List.cons_append, List.cons_append]
    exact .byte (hw x (by simp)) (ih (fun c hc => hw c (by simp [hc])))

theorem WsAlign_interleave : ∀ (words seps1 seps2 : List (List Nat)),
    (∀ w ∈ words, ∀ c ∈ w, is_ascii_whitespace c = false) →
    (∀ sp ∈ seps1, sp ≠ [] ∧ ∀ c ∈ sp, is_ascii_whitespace c = true) →
    (∀ sp ∈ seps2, sp ≠ [] ∧ ∀ c ∈ sp, is_ascii_whitespace c = true) →
    seps1.length = seps2.length →
    WsAlign (interleave words seps1) (interleave words seps2) := by
  intro words
  induction words with
  | nil =>
    intro seps1 seps2 _ _ _ _
    exact .nil
  | cons w ws ih =>
    intro seps1 seps2 hwords hs1 hs2 hlen
    cases ws with
    | nil =>
      simp only [interleave]
      exact WsAlign_refl w
    | cons w2 ws2 =>
      cases seps1 with
      | nil =>
        have h2 : seps2 = [] := List.length_eq_zero.mp hlen.symm
        subst h2
        exact WsAlign_refl _
      | cons sp1 rest1 =>
        cases seps2 with
        | nil => simp at hlen
        | cons sp2 rest2 =>
          simp only [interleave]
          apply WsAlign_append_bytes w (hwords w (by simp))
          exact WsAlign.ws (hs1 sp1 (by simp)).2 (hs2 sp2 (by simp)).2
            (hs1 sp1 (by simp)).1 (hs2 sp2 (by simp)).1
            (ih rest1 rest2 (fun u hu c hc => hwords u (by simp [hu]) c hc)
              (fun sp hsp => hs1 sp (by simp [hsp]))
              (fun sp hsp => hs2 sp (by simp [hsp])) (by simpa using hlen))

theorem takeWhile_head_true {p : Nat → Bool} {l tl : List Nat} {c : Nat}
    (h : l.takeWhile p = c :: tl) : p c = true := by
  cases l with
  | nil => simp at h
  | cons a l' =>
    rw [List.takeWhile_cons] at h
    by_cases hpa : p a
    · rw [if_pos hpa] at h
      injection h with e1 e2
      rw [← e1]
      exact hpa
    · rw [if_neg hpa] at h
      exact absurd h (by simp)

/-! ## The claims -/

/-- Claim C1: totality as specified — `next_token` never aborts and
eventually returns `Eof` on every byte buffer — is violated by the code:
on the buffer `"@"` (byte 64) the scan reaches the catch-all
`todo!("we need to implement this....2")` and panics (modelled as `none`),
so the token sequence is never produced.  The spec itself marks this
placeholder as to-be-replaced, so the claim states the intent and the code
is the slip. -/
theorem C1_totality_panics_on_at :
    next_token (Lexer.new (str "@")) = none ∧ tokensOfString (str "@") = none := by
  decide

/-- Claim C2: on the input `"let five = 5;"` repeated `next_token` calls
yield exactly `[Let, Ident "five", Equal, Int "5", Semicolon, Eof]`. -/
theorem C2_end_to_end_example :
    tokensOfString (str "let five = 5;") =
      some [Token.Let, Token.Ident (str "five"), Token.Equal, Token.Int (str "5"),
        Token.Semicolon, Token.Eof] := by
  decide

/-- Claim C3: maximal munch for the `-` leader: `"->"` lexes to exactly one
`Arrow` token (then `Eof`), and `"--"` — an unmatched two-byte run — falls
back to a single `Minus` token (then `Eof`). -/
theorem C3_minus_maximal_munch :
    tokensOfString (str "->") = some [Token.Arrow, Token.Eof] ∧
      tokensOfString (str "--") = some [Token.Minus, Token.Eof] := by
  decide

/-- Claim C4: progress — every `next_token` call on a well-formed state
whose result is not `Eof` strictly increases `position`. -/
theorem C4_progress (s : Lexer) (t : Token) (s' : Lexer) (hw : Wf s)
    (h : next_token s = some (t, s')) (_hne : t ≠ Token.Eof) :
    s.position < s'.position :=
  (next_token_step s t s' hw h).2.2.1

/-- Witness for C4 at the concrete input `"a"`. -/
theorem C4_progress_witness :
    (Lexer.new (str "a")).position < (⟨1, 2, 0, str "a"⟩ : Lexer).position :=
  C4_progress (Lexer.new (str "a")) (Token.Ident (str "a")) ⟨1, 2, 0, str "a"⟩
    (by decide) (by decide) (by decide)

/-- Claim C5: keyword versus identifier boundary — `"fnx"` lexes to one
identifier token carrying exactly the text `"fnx"` (the whole run is
consumed before the keyword lookup), never the `Function` keyword token. -/
theorem C5_keyword_vs_ident :
    tokensOfString (str "fnx") = some [Token.Ident (str "fnx"), Token.Eof] := by
  decide

/-- Claim C6 counterexample: on the empty input the first `next_token` call
returns `Eof` but leaves `position = 1 > 0 = input.length`, refuting the
claim that `position ≤ input.length` keeps holding across calls made after
end-of-input. -/
theorem C6_counterexample :
    next_token (Lexer.new ([] : List Nat)) = some (Token.Eof, ⟨1, 2, 0, []⟩) ∧
      ¬ ((⟨1, 2, 0, []⟩ : Lexer).position ≤ ([] : List Nat).length) := by
  decide

/-- Claim C6 (amended): `read_position = position + 1` holds after every
call; the bounds `position ≤ input.length` and
`read_position ≤ input.length + 1` hold at construction and are preserved
by every `next_token` call that does not return `Eof`; a call that returns
`Eof` instead strictly advances `position` (which can push it past
`input.length`, as the counterexample shows). -/
theorem C6_cursor_invariant (input : List Nat) (s : Lexer) (t : Token)
    (s' : Lexer) (hw : Wf s) (h : next_token s = some (t, s')) :
    (Wf (Lexer.new input) ∧ (Lexer.new input).position ≤ input.length ∧
      (Lexer.new input).read_position ≤ input.length + 1) ∧
    s'.read_position = s'.position + 1 ∧
    (t ≠ Token.Eof → s'.position ≤ s'.input.length ∧
      s'.read_position ≤ s'.input.length + 1) ∧
    (t = Token.Eof → s.position < s'.position) := by
  obtain ⟨hw', hinp, hpos, hble⟩ := next_token_step s t s' hw h
  refine ⟨⟨by rw [Lexer_new_eq]; exact Wf_stateAt _ _, by rw [Lexer_new_eq]; simp,
    by rw [Lexer_new_eq]; simp⟩, hw'.1, fun hne => ?_, fun _ => hpos⟩
  have hb := hble hne
  constructor
  · rw [hinp]
    exact hb
  · rw [hw'.1, hinp]
    omega

/-- Witness for C6 at the concrete input `";"`. -/
theorem C6_cursor_invariant_witness :
    (Wf (Lexer.new ([] : List Nat)) ∧
      (Lexer.new ([] : List Nat)).position ≤ ([] : List Nat).length ∧
      (Lexer.new ([] : List Nat)).read_position ≤ ([] : List Nat).length + 1) ∧
    (⟨1, 2, 0, str ";"⟩ : Lexer).read_position
      = (⟨1, 2, 0, str ";"⟩ : Lexer).position + 1 ∧
    (Token.Semicolon ≠ Token.Eof →
      (⟨1, 2, 0, str ";"⟩ : Lexer).position ≤ (⟨1, 2, 0, str ";"⟩ : Lexer).input.length ∧
      (⟨1, 2, 0, str ";"⟩ : Lexer).read_position
        ≤ (⟨1, 2, 0, str ";"⟩ : Lexer).input.length + 1) ∧
    (Token.Semicolon = Token.Eof →
      (Lexer.new (str ";")).position < (⟨1, 2, 0, str ";"⟩ : Lexer).position) :=
  C6_cursor_invariant [] (Lexer.new (str ";")) Token.Semicolon ⟨1, 2, 0, str ";"⟩
    (by decide) (by decide)

/-- Claim C7 counterexample: at the end of the input `";"` (current byte is
the sentinel 0), `next_token` returns `Eof` but the state fields are not
unchanged — `position` and `read_position` each advance by one. -/
theorem C7_counterexample :
    next_token (⟨1, 2, 0, str ";"⟩ : Lexer) = some (Token.Eof, ⟨2, 3, 0, str ";"⟩) ∧
      (⟨2, 3, 0, str ";"⟩ : Lexer) ≠ (⟨1, 2, 0, str ";"⟩ : Lexer) := by
  decide

/-- Claim C7 (amended): when the cursor is at or past the end of the input
(so the current byte is the sentinel 0), `next_token` returns `Eof`; the
state is not unchanged — `position` and `read_position` each advance by
one — but `ch` stays 0 and the cursor stays past the end, so every
subsequent call returns `Eof` again. -/
theorem C7_eof_idempotent (s : Lexer) (hw : Wf s)
    (hend : s.input.length ≤ s.position) :
    next_token s = some (Token.Eof, stateAt s.input (s.position + 1)) ∧
    (stateAt s.input (s.position + 1)).ch = 0 ∧
    Wf (stateAt s.input (s.position + 1)) ∧
    s.input.length ≤ (stateAt s.input (s.position + 1)).position := by
  have hdrop : s.input.drop s.position = [] := List.drop_eq_nil_of_le hend
  rw [next_token_eq_list s hw, hdrop]
  have hnl : nextTokenL [] = some (Token.Eof, 1) := by decide
  rw [hnl]
  refine ⟨rfl, ?_, Wf_stateAt _ _, by simp; omega⟩
  simp only [stateAt_ch]
  exact List.getD_eq_default _ _ (by omega)

/-- Witness for C7 at the empty input. -/
theorem C7_eof_idempotent_witness :
    next_token (Lexer.new ([] : List Nat)) =
      some (Token.Eof, stateAt ([] : List Nat) ((Lexer.new ([] : List Nat)).position + 1)) ∧
    (stateAt ([] : List Nat) ((Lexer.new ([] : List Nat)).position + 1)).ch = 0 ∧
    Wf (stateAt ([] : List Nat) ((Lexer.new ([] : List Nat)).position + 1)) ∧
    ([] : List Nat).length
      ≤ (stateAt ([] : List Nat) ((Lexer.new ([] : List Nat)).position + 1)).position :=
  C7_eof_idempotent (Lexer.new []) (by decide) (by decide)

/-- Claim C8: whitespace insensitivity — two inputs built from the same
words but different (non-empty, all-whitespace) separating runs produce
identical token sequences under repeated `next_token` calls. -/
theorem C8_whitespace_insensitivity (words seps1 seps2 : List (List Nat))
    (hwords : ∀ w ∈ words, ∀ c ∈ w, is_ascii_whitespace c = false)
    (hs1 : ∀ sp ∈ seps1, sp ≠ [] ∧ ∀ c ∈ sp, is_ascii_whitespace c = true)
    (hs2 : ∀ sp ∈ seps2, sp ≠ [] ∧ ∀ c ∈ sp, is_ascii_whitespace c = true)
    (hlen : seps1.length = seps2.length) :
    tokensOfString (interleave words seps1)
      = tokensOfString (interleave words seps2) := by
  rw [tokensOfString_lexAll (interleave words seps1)
    ((interleave words seps1).length + (interleave words seps2).length + 1) (by omega)]
  rw [tokensOfString_lexAll (interleave words seps2)
    ((interleave words seps1).length + (interleave words seps2).length + 1) (by omega)]
  apply lexAll_congr
  · rw [Lexer_new_eq]
    exact Wf_stateAt _ _
  · rw [Lexer_new_eq]
    exact Wf_stateAt _ _
  · rw [Lexer_new_eq, Lexer_new_eq]
    simp only [stateAt_input, stateAt_position, List.drop_zero]
    exact WsAlign_interleave words seps1 seps2 hwords hs1 hs2 hlen

/-- Witness for C8: `"let x"` and `"let  \nx"` lex identically. -/
theorem C8_whitespace_insensitivity_witness :
    tokensOfString (interleave [str "let", str "x"] [[32]])
      = tokensOfString (interleave [str "let", str "x"] [[32, 32, 10]]) :=
  C8_whitespace_insensitivity [str "let", str "x"] [[32]] [[32, 32, 10]]
    (by decide) (by decide) (by decide) (by decide)

/-- Claim C9: the `"=>"` arm of the keyword table is dead code — on every
well-formed state, the string `read_ident` returns is never `"=>"`, so that
arm can never produce `Arrow`. -/
theorem C9_arrow_entry_dead (s : Lexer) (hw : Wf s) :
    (read_ident s).1 ≠ str "=>" := by
  rw [hw.eq_stateAt]
  by_cases hc : is_ascii_alphabetic ((stateAt s.input s.position).ch)
      || (stateAt s.input s.position).ch = 95
  · rw [read_ident_stateAt_pos _ _ hc]
    intro he
    have he' : List.takeWhile ident_cont (s.input.drop s.position) = 61 :: [62] := by
      have he2 : List.takeWhile ident_cont (s.input.drop s.position) = str "=>" := he
      rw [he2]
      rfl
    exact absurd (takeWhile_head_true he') (by decide)
  · rw [read_ident_stateAt_neg _ _ hc]
    intro he
    have he' : ([] : List Nat) = str "=>" := he
    exact absurd he' (by decide)

/-- Witness for C9 at the concrete input `"=>"` itself. -/
theorem C9_arrow_entry_dead_witness :
    (read_ident (Lexer.new (str "=>"))).1 ≠ str "=>" :=
  C9_arrow_entry_dead (Lexer.new (str "=>")) (by decide)

/-- Claim C10: greedy-run byte loss at the public interface — on `"+=="`
the first `next_token` call consumes the whole maximal `{+, =}` run and
returns `Plus` with the cursor already past all three bytes, the next call
returns `Eof`, and the trailing `"=="` bytes are never emitted as any
token. -/
theorem C10_plus_run_loss :
    next_token (Lexer.new (str "+==")) = some (Token.Plus, ⟨3, 4, 0, str "+=="⟩) ∧
    next_token (⟨3, 4, 0, str "+=="⟩ : Lexer) = some (Token.Eof, ⟨4, 5, 0, str "+=="⟩) ∧
    tokensOfString (str "+==") = some [Token.Plus, Token.Eof] := by
  decide
